import Mathlib

/-!
# Verification of the security-glossary-tw validation suite and doc generator

This file embeds the term-loading, validation and export logic of the
repository (src/tests/test_yaml_validation.py and src/scripts/build_docs.py)
as executable Lean definitions and proves the specified properties about them.

YAML documents (as returned by yaml.safe_load) are modelled by the inductive
type `Yaml`; mappings are modelled with string keys, which covers every
document shape the glossary sources use.  Python code that can raise an
exception is modelled in the `Except String` monad, the string naming the
exception class.
-/

inductive Yaml : Type where
  | null
  | bool (b : Bool)
  | int (n : Int)
  | str (s : String)
  | list (xs : List Yaml)
  | map (kvs : List (String × Yaml))

mutual
def Yaml.beq : Yaml → Yaml → Bool
  | .null, .null => true
  | .bool a, .bool b => a == b
  | .int a, .int b => a == b
  | .str a, .str b => a == b
  | .list xs, .list ys => Yaml.beqList xs ys
  | .map xs, .map ys => Yaml.beqMap xs ys
  | _, _ => false
def Yaml.beqList : List Yaml → List Yaml → Bool
  | [], [] => true
  | x :: xs, y :: ys => Yaml.beq x y && Yaml.beqList xs ys
  | _, _ => false
def Yaml.beqMap : List (String × Yaml) → List (String × Yaml) → Bool
  | [], [] => true
  | (k1, v1) :: xs, (k2, v2) :: ys => k1 == k2 && Yaml.beq v1 v2 && Yaml.beqMap xs ys
  | _, _ => false
end

mutual
theorem Yaml.eq_of_beq : ∀ (a b : Yaml), Yaml.beq a b = true → a = b
  | .null, .null, _ => rfl
  | .null, .bool _, h => nomatch h
  | .null, .int _, h => nomatch h
  | .null, .str _, h => nomatch h
  | .null, .list _, h => nomatch h
  | .null, .map _, h => nomatch h
  | .bool _, .null, h => nomatch h
  | .bool a, .bool b, h => by simp [Yaml.beq] at h; rw [h]
  | .bool _, .int _, h => nomatch h
  | .bool _, .str _, h => nomatch h
  | .bool _, .list _, h => nomatch h
  | .bool _, .map _, h => nomatch h
  | .int _, .null, h => nomatch h
  | .int _, .bool _, h => nomatch h
  | .int a, .int b, h => by simp [Yaml.beq] at h; rw [h]
  | .int _, .str _, h => nomatch h
  | .int _, .list _, h => nomatch h
  | .int _, .map _, h => nomatch h
  | .str _, .null, h => nomatch h
  | .str _, .bool _, h => nomatch h
  | .str _, .int _, h => nomatch h
  | .str a, .str b, h => by simp [Yaml.beq] at h; rw [h]
  | .str _, .list _, h => nomatch h
  | .str _, .map _, h => nomatch h
  | .list _, .null, h => nomatch h
  | .list _, .bool _, h => nomatch h
  | .list _, .int _, h => nomatch h
  | .list _, .str _, h => nomatch h
  | .list xs, .list ys, h => congrArg Yaml.list (Yaml.eqList_of_beqList xs ys h)
  | .list _, .map _, h => nomatch h
  | .map _, .null, h => nomatch h
  | .map _, .bool _, h => nomatch h
  | .map _, .int _, h => nomatch h
  | .map _, .str _, h => nomatch h
  | .map _, .list _, h => nomatch h
  | .map xs, .map ys, h => congrArg Yaml.map (Yaml.eqMap_of_beqMap xs ys h)
theorem Yaml.eqList_of_beqList : ∀ (xs ys : List Yaml), Yaml.beqList xs ys = true → xs = ys
  | [], [], _ => rfl
  | [], _ :: _, h => nomatch h
  | _ :: _, [], h => nomatch h
  | x :: xs, y :: ys, h => by
      have h' : Yaml.beq x y = true ∧ Yaml.beqList xs ys = true := by
        simpa [Yaml.beqList, Bool.and_eq_true] using h
      rw [Yaml.eq_of_beq x y h'.1, Yaml.eqList_of_beqList xs ys h'.2]
theorem Yaml.eqMap_of_beqMap : ∀ (xs ys : List (String × Yaml)), Yaml.beqMap xs ys = true → xs = ys
  | [], [], _ => rfl
  | [], _ :: _, h => nomatch h
  | _ :: _, [], h => nomatch h
  | (k1, v1) :: xs, (k2, v2) :: ys, h => by
      have h' : (k1 == k2) = true ∧ Yaml.beq v1 v2 = true ∧ Yaml.beqMap xs ys = true := by
        simpa [Yaml.beqMap, Bool.and_eq_true, and_assoc] using h
      have hk : k1 = k2 := by simpa using h'.1
      rw [hk, Yaml.eq_of_beq v1 v2 h'.2.1, Yaml.eqMap_of_beqMap xs ys h'.2.2]
end

mutual
theorem Yaml.beq_refl : ∀ a : Yaml, Yaml.beq a a = true
  | .null => rfl
  | .bool b => by simp [Yaml.beq]
  | .int n => by simp [Yaml.beq]
  | .str s => by simp [Yaml.beq]
  | .list xs => Yaml.beqList_refl xs
  | .map kvs => Yaml.beqMap_refl kvs
theorem Yaml.beqList_refl : ∀ xs : List Yaml, Yaml.beqList xs xs = true
  | [] => rfl
  | x :: xs => by
      simp [Yaml.beqList, Bool.and_eq_true]
      exact ⟨Yaml.beq_refl x, Yaml.beqList_refl xs⟩
theorem Yaml.beqMap_refl : ∀ kvs : List (String × Yaml), Yaml.beqMap kvs kvs = true
  | [] => rfl
  | (k, v) :: rest => by
      simp [Yaml.beqMap, Bool.and_eq_true]
      exact ⟨Yaml.beq_refl v, Yaml.beqMap_refl rest⟩
end

instance : BEq Yaml := ⟨Yaml.beq⟩

instance : LawfulBEq Yaml where
  eq_of_beq h := Yaml.eq_of_beq _ _ h
  rfl := Yaml.beq_refl _

instance Yaml.decEq : DecidableEq Yaml := fun a b =>
  decidable_of_iff (Yaml.beq a b = true) ⟨Yaml.eq_of_beq a b, fun h => h ▸ Yaml.beq_refl a⟩

/-- Python truthiness of a loaded YAML value (`if data:` etc.). -/
def Yaml.truthy : Yaml → Bool
  | .null => false
  | .bool b => b
  | .int n => n != 0
  | .str s => !s.isEmpty
  | .list xs => !xs.isEmpty
  | .map kvs => !kvs.isEmpty

/-- A loaded term record: a Python dict with string keys, as produced by
yaml.safe_load for one element of a `terms` list. -/
abbrev TermDict := List (String × Yaml)

/-- Python `d.get(k, default)` on a dict: the stored value when the key is
present (even when that value is None), otherwise the default. -/
def pyGet (t : TermDict) (k : String) (d : Yaml) : Yaml :=
  (List.lookup k t).getD d

/-- Python `d[k] = v` on a dict: overwrite in place when present, else append. -/
def setKey (t : TermDict) (k : String) (v : Yaml) : TermDict :=
  if (List.lookup k t).isSome then
    t.map (fun kv => if kv.1 = k then (k, v) else kv)
  else
    t ++ [(k, v)]

/-- `needle` occurs as a contiguous run inside `hay` (Python `sub in str`). -/
def charsInfix (n : List Char) : List Char → Bool
  | [] => n.isEmpty
  | c :: t => n.isPrefixOf (c :: t) || charsInfix n t

/-- Python `key in data`: dict key membership, list element membership,
substring test on strings; TypeError on non-container values. -/
def pyContains (key : String) : Yaml → Except String Bool
  | .map kvs => .ok (List.lookup key kvs).isSome
  | .list xs => .ok (xs.any (fun x => x == Yaml.str key))
  | .str s => .ok (charsInfix key.data s.data)
  | _ => .error "TypeError"

/-- Python `data[key]` for a string key: dict lookup (KeyError when absent),
TypeError on every other value. -/
def pyIndexStr (d : Yaml) (k : String) : Except String Yaml :=
  match d with
  | .map kvs =>
    match List.lookup k kvs with
    | some v => .ok v
    | none => .error "KeyError"
  | _ => .error "TypeError"

/-- Python iteration over a value (`for x in v` / `list.extend(v)`): lists give
their elements, strings their characters (as 1-character strings), dicts their
keys; anything else raises TypeError. -/
def pyIterElems : Yaml → Except String (List Yaml)
  | .list xs => .ok xs
  | .str s => .ok (s.data.map (fun c => .str (String.singleton c)))
  | .map kvs => .ok (kvs.map (fun kv => Yaml.str kv.1))
  | _ => .error "TypeError"

/-- One source group: the file name (e.g. "attack_types.yaml") together with
the document yaml.safe_load produced for it. -/
abbrev SourceGroup := String × Yaml

/-- The term records contributed by one source group in
`get_all_terms` (src/tests/test_yaml_validation.py): each element of the
`terms` value gets `_source_file` set to the group's file name.  A non-dict
element raises TypeError at the `term["_source_file"] = filename` assignment;
iterating a non-empty string or dict yields non-dict elements and likewise
raises; empty iterables contribute nothing. -/
def extractTermDicts (filename : String) : Yaml → Except String (List TermDict)
  | .list ts => ts.mapM (fun t =>
      match t with
      | .map kvs => .ok (setKey kvs "_source_file" (.str filename))
      | _ => .error "TypeError")
  | .str s => if s.isEmpty then .ok [] else .error "TypeError"
  | .map kvs => if kvs.isEmpty then .ok [] else .error "TypeError"
  | _ => .error "TypeError"

/-- `get_all_terms` from src/tests/test_yaml_validation.py: for every loaded
file, when the document is truthy and contains a `terms` key, tag each term
record with its `_source_file` and concatenate, in file enumeration order. -/
def getTermsStep (acc : List TermDict) (g : SourceGroup) :
    Except String (List TermDict) := do
  if g.2.truthy then
    let c ← pyContains "terms" g.2
    if c then
      let v ← pyIndexStr g.2 "terms"
      let ts ← extractTermDicts g.1 v
      return acc ++ ts
    else
      return acc
  else
    return acc

def get_all_terms (groups : List SourceGroup) : Except String (List TermDict) :=
  groups.foldlM getTermsStep []

/-- Severity of a validation finding: a failed pytest assertion (or an
uncaught exception) is fatal and fails the build, a printed / skipped
diagnostic is a warning. -/
inductive Severity : Type where
  | fatal
  | warning
deriving DecidableEq

/-- `term.get("id")` as used by the id-uniqueness check: the id value of a
term, Python None (here `Yaml.null`) when the field is absent. -/
def idValue (t : TermDict) : Yaml := pyGet t "id" .null

/-- One duplicate-id finding, carrying the data interpolated into the
message `ID (term_id) 重複: (seen_ids[term_id]) 和 (source)`. -/
structure DupFinding : Type where
  severity : Severity
  termId : Yaml
  firstSource : Yaml
  secondSource : Yaml
deriving DecidableEq

/-- The loop body of `test_term_ids_unique_globally`: walk the terms keeping
a dict `seen` from id value to the first source file it was seen in; a term
whose id is already in `seen` yields one finding naming the recorded first
source and the current term's source. -/
def dupFold : List TermDict → List (Yaml × Yaml) → List DupFinding
  | [], _ => []
  | t :: rest, seen =>
    let tid := idValue t
    let src := pyGet t "_source_file" .null
    match List.lookup tid seen with
    | some first =>
      ⟨.fatal, tid, first, src⟩ :: dupFold rest seen
    | none => dupFold rest (seen ++ [(tid, src)])

/-- `test_term_ids_unique_globally` (src/tests/test_yaml_validation.py):
the list of duplicate-id findings over all loaded terms; the test's assertion
fails (fatally) exactly when this list is non-empty. -/
def duplicateIdFindings (ts : List TermDict) : List DupFinding :=
  dupFold ts []

/-- Direct transcription of the id regex `^[a-z][a-z0-9_]*$` without any
engine-specific behavior: a first character in a-z followed by characters
drawn from a-z, 0-9 and the underscore, up to the very end of the string.
This is also the shape the specification describes in words. -/
def isIdCore (s : String) : Bool :=
  match s.data with
  | [] => false
  | c :: rest =>
    (Char.ofNat 97 ≤ c && c ≤ Char.ofNat 122) &&
    rest.all (fun d =>
      (Char.ofNat 97 ≤ d && d ≤ Char.ofNat 122) ||
      (Char.ofNat 48 ≤ d && d ≤ Char.ofNat 57) ||
      d = Char.ofNat 95)

/-- Python `re.match` of `^[a-z][a-z0-9_]*$` against `s`: in Python the `$`
anchor also matches just before one trailing newline, so the pattern accepts
both the core shape and the core shape followed by a final newline. -/
def idPatternMatch (s : String) : Bool :=
  isIdCore s ||
  (match s.data.getLast? with
   | some c => c = Char.ofNat 10 && isIdCore ⟨s.data.dropLast⟩
   | none => false)

/-- One id-format finding, carrying the data interpolated into the message
`無效 ID (term_id) (來自 (source))`. -/
structure IdFormatFinding : Type where
  severity : Severity
  invalidId : String
  source : Yaml
deriving DecidableEq

/-- `test_term_id_format` (src/tests/test_yaml_validation.py): for each term
take `term.get("id", "")` and test it against the compiled pattern
`^[a-z][a-z0-9_]*$`; a non-string id value (including an explicit YAML null)
raises TypeError inside `re.match`.  The assertion fails exactly when the
returned list is non-empty. -/
def idFormatStep (acc : List IdFormatFinding) (t : TermDict) :
    Except String (List IdFormatFinding) :=
  match pyGet t "id" (.str "") with
  | .str s =>
    if idPatternMatch s then .ok acc
    else .ok (acc ++ [⟨.fatal, s, pyGet t "_source_file" .null⟩])
  | _ => .error "TypeError"

def idFormatCheck (ts : List TermDict) : Except String (List IdFormatFinding) :=
  ts.foldlM idFormatStep []

/-- The set of characters Python's `\s` matches in a unicode str pattern
(the ASCII whitespace characters together with the unicode space
separators), given by code point. -/
def pySpaceCodes : List Nat :=
  [9, 10, 11, 12, 13, 28, 29, 30, 31, 32, 133, 160, 5760,
   8192, 8193, 8194, 8195, 8196, 8197, 8198, 8199, 8200, 8201, 8202,
   8232, 8233, 8239, 8287, 12288]

/-- A character the class `[^\s\"'<>]` of the URL pattern accepts. -/
def urlAllowedChar (c : Char) : Bool :=
  !(pySpaceCodes.contains c.toNat) &&
  c ≠ Char.ofNat 34 && c ≠ Char.ofNat 39 && c ≠ Char.ofNat 60 && c ≠ Char.ofNat 62

/-- Python `URL_PATTERN.match(url)` for `URL_PATTERN =
re.compile(r"https?://[^\s\"'<>]+")`: `re.match` anchors only at the start
of the string, so the pattern succeeds exactly when the string starts with
`http://` or `https://` immediately followed by at least one character that
is not whitespace, a quote or an angle bracket; anything after that first
accepted character is irrelevant. -/
def urlPatternMatch (s : String) : Bool :=
  (("http://".data.isPrefixOf s.data) && matchTail (s.data.drop 7)) ||
  (("https://".data.isPrefixOf s.data) && matchTail (s.data.drop 8))
where
  matchTail : List Char → Bool
  | [] => false
  | c :: _ => urlAllowedChar c

/-- The URL shape the specification (and claim C2) describe: the whole value
is `http://` or `https://` followed by one or more characters none of which
is whitespace, an angle bracket or a quote — nothing else after them. -/
def specUrlShape (s : String) : Bool :=
  (("http://".data.isPrefixOf s.data) && specTail (s.data.drop 7)) ||
  (("https://".data.isPrefixOf s.data) && specTail (s.data.drop 8))
where
  specTail (l : List Char) : Bool := !l.isEmpty && l.all urlAllowedChar

/-- One URL-format finding, carrying the data interpolated into the message
`(source)/(term_id): references.(key) 不是有效 URL`. -/
structure UrlFinding : Type where
  severity : Severity
  source : Yaml
  termId : Yaml
  refKey : String
deriving DecidableEq

/-- The inner loop of `test_reference_urls_format` over one references dict:
an entry is tested only when its value is truthy and a string, i.e. a
non-empty string; a tested value that the URL pattern does not match yields
one fatal finding naming the reference key. -/
def urlFindingsOfRefs (source termId : Yaml) (kvs : List (String × Yaml)) :
    List UrlFinding :=
  kvs.foldl (fun acc kv =>
    match kv.2 with
    | .str s =>
      if !s.isEmpty && !urlPatternMatch s then acc ++ [⟨.fatal, source, termId, kv.1⟩]
      else acc
    | _ => acc) []

/-- `test_reference_urls_format` restricted to one term: terms whose
`references` value (default `{}`) is not a dict are skipped entirely. -/
def urlFindingsOfTerm (t : TermDict) : List UrlFinding :=
  match pyGet t "references" (.map []) with
  | .map kvs =>
    urlFindingsOfRefs (pyGet t "_source_file" (.str "unknown"))
      (pyGet t "id" (.str "unknown")) kvs
  | _ => []

/-- `test_reference_urls_format` (src/tests/test_yaml_validation.py): all
URL-format findings over all loaded terms; the assertion fails exactly when
the list is non-empty. -/
def urlCheck (ts : List TermDict) : List UrlFinding :=
  ts.foldl (fun acc t => acc ++ urlFindingsOfTerm t) []

/-- One dangling related-term reference, carrying the data interpolated into
the message `(source)/(term_id): related_terms 引用不存在的 (ref_id)`.  The
check only prints, so the severity recorded is warning. -/
structure RelatedFinding : Type where
  severity : Severity
  source : Yaml
  termId : Yaml
  refId : Yaml
deriving DecidableEq

/-- `all_term_ids` fixture (src/tests/test_yaml_validation.py): the set of
truthy id values of the loaded terms. -/
def allTermIds (ts : List TermDict) : List Yaml :=
  ts.filterMap (fun t =>
    let i := pyGet t "id" .null
    if i.truthy then some i else none)

/-- `test_related_terms_exist`: for each term whose `related_terms` value
(default `[]`) is a list, every listed id that is not a known (truthy) term
id yields one warning finding. -/
def missingReferences (ts : List TermDict) : List RelatedFinding :=
  let known := allTermIds ts
  ts.foldl (fun acc t =>
    match pyGet t "related_terms" (.list []) with
    | .list refs =>
      acc ++ (refs.filter (fun r => !known.contains r)).map
        (fun r => ⟨.warning, pyGet t "_source_file" (.str "unknown"),
                   pyGet t "id" (.str "unknown"), r⟩)
    | _ => acc) []

/-- The build-visible alert of `test_related_terms_exist`: printed when the
list of missing references is non-empty and its length exceeds 10.  The test
contains no assertion, so it can never fail. -/
def relatedAlert (ts : List TermDict) : Bool :=
  !(missingReferences ts).isEmpty && (missingReferences ts).length > 10

/-- `load_valid_categories` (src/tests/test_yaml_validation.py): when the
categories file does not exist the function returns `[]`; when it exists the
document must be a dict (`data.get` raises AttributeError otherwise), the
`categories` value (default `[]`) is iterated, and each element is indexed
with `cat["id"]`. -/
def load_valid_categories (file : Option Yaml) : Except String (List Yaml) :=
  match file with
  | none => .ok []
  | some data =>
    match data with
    | .map kvs => do
      let items ← pyIterElems ((List.lookup "categories" kvs).getD (.list []))
      items.mapM (fun c => pyIndexStr c "id")
    | _ => .error "AttributeError"

/-- One invalid-category finding, carrying the data interpolated into the
message `(source)/(term_id): 無效分類 (category)`. -/
structure CategoryFinding : Type where
  severity : Severity
  source : Yaml
  termId : Yaml
  category : Yaml
deriving DecidableEq

/-- `test_category_is_valid`: when the valid-category list is empty the test
is skipped (`pytest.skip`) and reports nothing; otherwise each term whose
`category` value (default `""`) is not among the valid ids yields one fatal
finding. -/
def categoryCheck (valid : List Yaml) (ts : List TermDict) : List CategoryFinding :=
  if valid.isEmpty then []
  else
    ts.foldl (fun acc t =>
      let cat := pyGet t "category" (.str "")
      if valid.contains cat then acc
      else acc ++ [⟨.fatal, pyGet t "_source_file" (.str "unknown"),
                    pyGet t "id" (.str "unknown"), cat⟩]) []

/-- The category-validity check as run by the suite: load the registry, then
run `categoryCheck`.  A malformed categories document propagates its
exception. -/
def categoryCheckFull (file : Option Yaml) (ts : List TermDict) :
    Except String (List CategoryFinding) := do
  let valid ← load_valid_categories file
  return categoryCheck valid ts

/-- The single repository-level finding of `test_minimum_term_count`,
carrying the actual count interpolated into the message. -/
structure CountFinding : Type where
  severity : Severity
  actual : Nat
deriving DecidableEq

/-- `test_minimum_term_count` (src/tests/test_yaml_validation.py):
`assert len(terms) >= 100` — one fatal repository-level finding exactly when
the total number of loaded terms is below 100. -/
def minCountFindings (ts : List TermDict) : List CountFinding :=
  if ts.length ≥ 100 then [] else [⟨.fatal, ts.length⟩]

/-- The structural shape the spec requires of one source group document: a
mapping containing a `terms` key whose value is a sequence. -/
def structurallyValid (d : Yaml) : Bool :=
  match d with
  | .map kvs =>
    match List.lookup "terms" kvs with
    | some (.list _) => true
    | _ => false
  | _ => false

/-- `test_yaml_syntax_valid`: the files whose document is None or not a
dict.  The test's assertions fail exactly when this list is non-empty. -/
def yamlSyntaxOffenders (groups : List SourceGroup) : List String :=
  groups.foldl (fun acc g =>
    match g.2 with
    | .map _ => acc
    | _ => acc ++ [g.1]) []

/-- `test_yaml_has_terms_key`: for each file, `assert "terms" in data` then
`assert isinstance(data["terms"], list)`.  `"terms" in data` raises TypeError
on None/int/bool documents, and `data["terms"]` raises TypeError on list and
string documents that pass the membership test. -/
def termsKeyStep (acc : List String) (g : SourceGroup) :
    Except String (List String) := do
  let c ← pyContains "terms" g.2
  if !c then
    return acc ++ [g.1]
  else
    let v ← pyIndexStr g.2 "terms"
    match v with
    | .list _ => return acc
    | _ => return acc ++ [g.1]

def termsKeyOffenders (groups : List SourceGroup) : Except String (List String) :=
  groups.foldlM termsKeyStep []

/-- Lexicographic comparison of character lists by code point, the order in
which Python's `sorted` ranks the glob results of a single directory. -/
def charsLe : List Char → List Char → Bool
  | [], _ => true
  | _ :: _, [] => false
  | a :: as, b :: bs =>
    if a.toNat < b.toNat then true
    else if b.toNat < a.toNat then false
    else charsLe as bs

/-- Lexicographic string comparison by code point. -/
def strLe (a b : String) : Bool := charsLe a.data b.data

/-- The order `sorted` ranks source groups by: lexicographic comparison of
their file names. -/
def groupLe (a b : SourceGroup) : Prop := strLe a.1 b.1 = true

instance : DecidableRel groupLe := fun a b => by
  unfold groupLe; infer_instance

/-- `sorted(TERMS_DIR.glob("*.yaml"))` in src/scripts/build_docs.py: the
source groups ranked lexicographically by file name (a stable sort, as
Python's `sorted` is). -/
def sortGroups (groups : List SourceGroup) : List SourceGroup :=
  groups.insertionSort groupLe

/-- `load_all_terms` (src/scripts/build_docs.py): for every file in sorted
order, when the document is truthy and contains a `terms` key, extend the
accumulated list with the elements of `data["terms"]` in their on-disk
order. -/
def loadTermsStep (acc : List Yaml) (g : SourceGroup) :
    Except String (List Yaml) := do
  if g.2.truthy then
    let c ← pyContains "terms" g.2
    if c then
      let v ← pyIndexStr g.2 "terms"
      let es ← pyIterElems v
      return acc ++ es
    else
      return acc
  else
    return acc

def load_all_terms (groups : List SourceGroup) : Except String (List Yaml) :=
  (sortGroups groups).foldlM loadTermsStep []

/-- `generate_term_json` (src/scripts/build_docs.py): the flat export record
of one term.  `id`, `term_en` and `term_zh` are accessed with `term[...]`
(KeyError when absent); the remaining fields fall back to empty defaults. -/
def generate_term_json (t : TermDict) : Except String (List (String × Yaml)) :=
  match List.lookup "id" t, List.lookup "term_en" t, List.lookup "term_zh" t with
  | some i, some en, some zh =>
    .ok [("id", i), ("term_en", en), ("term_zh", zh),
         ("definitions", pyGet t "definitions" (.map [])),
         ("category", pyGet t "category" (.str "")),
         ("subcategory", pyGet t "subcategory" (.str "")),
         ("tags", pyGet t "tags" (.list [])),
         ("related_terms", pyGet t "related_terms" (.list [])),
         ("aliases", pyGet t "aliases" (.map []))]
  | _, _, _ => .error "KeyError"

/-! ## Helper lemmas -/

theorem char_toNat_inj {a b : Char} (h : a.toNat = b.toNat) : a = b :=
  StrictMono.injective (f := Char.toNat) (fun _ _ hh => hh) h

theorem charsLe_total : ∀ a b : List Char, charsLe a b = true ∨ charsLe b a = true
  | [], _ => Or.inl rfl
  | _ :: _, [] => Or.inr rfl
  | a :: as, b :: bs => by
    rcases Nat.lt_trichotomy a.toNat b.toNat with h | h | h
    · exact Or.inl (by simp [charsLe, h])
    · have hne : ¬ a.toNat < b.toNat := by omega
      have hne2 : ¬ b.toNat < a.toNat := by omega
      rcases charsLe_total as bs with ih | ih
      · exact Or.inl (by simp [charsLe, hne, hne2, ih])
      · exact Or.inr (by simp [charsLe, hne, hne2, ih])
    · exact Or.inr (by simp [charsLe, h])

theorem charsLe_trans : ∀ a b c : List Char,
    charsLe a b = true → charsLe b c = true → charsLe a c = true
  | [], _, _, _, _ => rfl
  | _ :: _, [], _, h, _ => by simp [charsLe] at h
  | _ :: _, _ :: _, [], _, h2 => by simp [charsLe] at h2
  | a :: as, b :: bs, c :: cs, h1, h2 => by
    by_cases hab : a.toNat < b.toNat <;> by_cases hbc : b.toNat < c.toNat
    · simp [charsLe, Nat.lt_trans hab hbc]
    · have hcb : ¬ c.toNat < b.toNat := by
        intro hc; simp [charsLe, hbc, hc] at h2
      have : b.toNat = c.toNat := by omega
      simp [charsLe, this ▸ hab]
    · have hba : ¬ b.toNat < a.toNat := by
        intro hb; simp [charsLe, hab, hb] at h1
      have : a.toNat = b.toNat := by omega
      simp [charsLe, this ▸ hbc]
    · have hba : ¬ b.toNat < a.toNat := by
        intro hb; simp [charsLe, hab, hb] at h1
      have hcb : ¬ c.toNat < b.toNat := by
        intro hc; simp [charsLe, hbc, hc] at h2
      have hab2 : a.toNat = b.toNat := by omega
      have hbc2 : b.toNat = c.toNat := by omega
      have hac : ¬ a.toNat < c.toNat := by omega
      have hca : ¬ c.toNat < a.toNat := by omega
      have t1 : charsLe as bs = true := by simpa [charsLe, hab, hba] using h1
      have t2 : charsLe bs cs = true := by simpa [charsLe, hbc, hcb] using h2
      simpa [charsLe, hac, hca] using charsLe_trans as bs cs t1 t2

theorem charsLe_antisymm : ∀ a b : List Char,
    charsLe a b = true → charsLe b a = true → a = b
  | [], [], _, _ => rfl
  | [], _ :: _, _, h => by simp [charsLe] at h
  | _ :: _, [], h, _ => by simp [charsLe] at h
  | a :: as, b :: bs, h1, h2 => by
    by_cases hab : a.toNat < b.toNat
    · have : ¬ b.toNat < a.toNat := by omega
      simp [charsLe, this, hab] at h2
    · by_cases hba : b.toNat < a.toNat
      · simp [charsLe, hab, hba] at h1
      · have hch : a = b := char_toNat_inj (by omega)
        have t1 : charsLe as bs = true := by simpa [charsLe, hab, hba] using h1
        have t2 : charsLe bs as = true := by simpa [charsLe, hab, hba] using h2
        rw [hch, charsLe_antisymm as bs t1 t2]

theorem strLe_antisymm {a b : String} (h1 : strLe a b = true) (h2 : strLe b a = true) :
    a = b := by
  have hd : a.data = b.data := charsLe_antisymm _ _ h1 h2
  cases a; cases b; exact congrArg String.mk (by simpa using hd)

instance : IsTotal SourceGroup groupLe :=
  ⟨fun a b => charsLe_total a.1.data b.1.data⟩

instance : IsTrans SourceGroup groupLe :=
  ⟨fun _ _ _ h1 h2 => charsLe_trans _ _ _ h1 h2⟩

/-- The strict version of the group order used to show sorted permutations
coincide: ordered and with different file names. -/
def groupLtNe (a b : SourceGroup) : Prop := groupLe a b ∧ a.1 ≠ b.1

instance : IsAntisymm SourceGroup groupLtNe :=
  ⟨fun _ _ h1 h2 => absurd (strLe_antisymm h1.1 h2.1) h1.2⟩

/-- A left fold that only ever appends is the concatenation of the per-element
contributions. -/
theorem foldl_concatMap {α β : Type} (f : α → List β) :
    ∀ (l : List α) (acc : List β),
      l.foldl (fun a t => a ++ f t) acc = acc ++ l.flatMap f
  | [], acc => by simp
  | x :: xs, acc => by
    simp only [List.foldl_cons, List.flatMap_cons, foldl_concatMap f xs (acc ++ f x)]
    simp

theorem length_bind_ite {α β : Type} (p : α → Bool) (g : α → β) :
    ∀ l : List α, (l.flatMap (fun t => if p t then [g t] else [])).length = l.countP p
  | [] => rfl
  | x :: xs => by
    by_cases h : p x <;>
      simp [List.flatMap_cons, h, length_bind_ite p g xs, List.countP_cons]

theorem lookup_eq_none_iff {β : Type} (k : Yaml) :
    ∀ l : List (Yaml × β), List.lookup k l = none ↔ k ∉ l.map Prod.fst
  | [] => by simp
  | (k2, v) :: rest => by
    by_cases h : k = k2
    · subst h; simp [List.lookup]
    · have hb : (k == k2) = false := by simpa using h
      simp [List.lookup, hb, lookup_eq_none_iff k rest, h]

theorem lookup_append {β : Type} (k : Yaml) (l1 l2 : List (Yaml × β)) :
    List.lookup k (l1 ++ l2) =
      (List.lookup k l1).elim (List.lookup k l2) some := by
  induction l1 with
  | nil => simp
  | cons kv rest ih =>
    by_cases h : k = kv.1
    · subst h; simp [List.lookup]
    · have hb : (k == kv.1) = false := by simpa using h
      simpa [List.lookup, hb] using ih

theorem flatMap_ite_filter_map {α β : Type} (p : α → Bool) (g : α → β) :
    ∀ l : List α, l.flatMap (fun t => if p t then [g t] else []) = (l.filter p).map g
  | [] => rfl
  | x :: xs => by
    by_cases h : p x <;>
      simp [List.flatMap_cons, h, flatMap_ite_filter_map p g xs, List.filter_cons]

/-- A reference entry the URL check actually reports: a non-empty string
value that the URL pattern does not match. -/
def urlBadEntry (kv : String × Yaml) : Bool :=
  match kv.2 with
  | .str s => !s.isEmpty && !urlPatternMatch s
  | _ => false

/-- A reference entry the URL check examines at all: a non-empty string. -/
def urlTestedEntry (kv : String × Yaml) : Bool :=
  match kv.2 with
  | .str s => !s.isEmpty
  | _ => false

theorem urlFindingsOfRefs_eq (source termId : Yaml) (kvs : List (String × Yaml)) :
    urlFindingsOfRefs source termId kvs =
      (kvs.filter urlBadEntry).map (fun kv => ⟨.fatal, source, termId, kv.1⟩) := by
  have hbody : (fun (acc : List UrlFinding) (kv : String × Yaml) =>
      match kv.2 with
      | .str s =>
        if !s.isEmpty && !urlPatternMatch s then acc ++ [⟨.fatal, source, termId, kv.1⟩]
        else acc
      | _ => acc) =
      (fun acc kv =>
        acc ++ (if urlBadEntry kv then [⟨.fatal, source, termId, kv.1⟩] else [])) := by
    funext acc kv
    rcases kv with ⟨k, v⟩
    cases v with
    | str s =>
      by_cases h : (!s.isEmpty && !urlPatternMatch s) = true
      · simp [urlBadEntry, h]
      · simp [urlBadEntry, h, Bool.not_eq_true _ ▸ h]
    | null => simp [urlBadEntry]
    | bool b => simp [urlBadEntry]
    | int n => simp [urlBadEntry]
    | list xs => simp [urlBadEntry]
    | map m => simp [urlBadEntry]
  rw [urlFindingsOfRefs, hbody, foldl_concatMap, flatMap_ite_filter_map]
  simp

theorem filter_filter_of_imp {α : Type} {p q : α → Bool} (h : ∀ a, p a = true → q a = true) :
    ∀ l : List α, (l.filter q).filter p = l.filter p
  | [] => rfl
  | x :: xs => by
    by_cases hq : q x = true
    · by_cases hp : p x = true <;>
        simp [List.filter_cons, hq, hp, filter_filter_of_imp h xs]
    · have hp : p x = false := by
        cases hpx : p x
        · rfl
        · exact absurd (h x hpx) hq
      simp [List.filter_cons, hq, hp, filter_filter_of_imp h xs]

theorem urlBadEntry_tested (kv : String × Yaml) :
    urlBadEntry kv = true → urlTestedEntry kv = true := by
  rcases kv with ⟨k, v⟩
  cases v <;> simp [urlBadEntry, urlTestedEntry] <;> intro h _ <;> exact h

theorem missingReferences_eq (ts : List TermDict) :
    missingReferences ts = ts.flatMap (fun t =>
      match pyGet t "related_terms" (.list []) with
      | .list refs =>
        (refs.filter (fun r => !(allTermIds ts).contains r)).map
          (fun r => ⟨.warning, pyGet t "_source_file" (.str "unknown"),
                     pyGet t "id" (.str "unknown"), r⟩)
      | _ => []) := by
  have hbody : (fun (acc : List RelatedFinding) (t : TermDict) =>
      match pyGet t "related_terms" (.list []) with
      | .list refs =>
        acc ++ (refs.filter (fun r => !(allTermIds ts).contains r)).map
          (fun r => ⟨.warning, pyGet t "_source_file" (.str "unknown"),
                     pyGet t "id" (.str "unknown"), r⟩)
      | _ => acc) =
      (fun acc t =>
        acc ++ (match pyGet t "related_terms" (.list []) with
          | .list refs =>
            (refs.filter (fun r => !(allTermIds ts).contains r)).map
              (fun r => ⟨.warning, pyGet t "_source_file" (.str "unknown"),
                         pyGet t "id" (.str "unknown"), r⟩)
          | _ => [])) := by
    funext acc t
    cases pyGet t "related_terms" (.list []) <;> simp
  rw [missingReferences, hbody, foldl_concatMap]
  simp

theorem categoryCheck_eq (valid : List Yaml) (ts : List TermDict) (h : valid ≠ []) :
    categoryCheck valid ts =
      (ts.filter (fun t => !valid.contains (pyGet t "category" (.str "")))).map
        (fun t => ⟨.fatal, pyGet t "_source_file" (.str "unknown"),
                   pyGet t "id" (.str "unknown"), pyGet t "category" (.str "")⟩) := by
  have hne : valid.isEmpty = false := by
    cases valid
    · exact absurd rfl h
    · rfl
  have hbody : (fun (acc : List CategoryFinding) (t : TermDict) =>
      if valid.contains (pyGet t "category" (.str "")) then acc
      else acc ++ [⟨.fatal, pyGet t "_source_file" (.str "unknown"),
                    pyGet t "id" (.str "unknown"), pyGet t "category" (.str "")⟩]) =
      (fun acc t =>
        acc ++ (if !valid.contains (pyGet t "category" (.str ""))
          then [⟨.fatal, pyGet t "_source_file" (.str "unknown"),
                 pyGet t "id" (.str "unknown"), pyGet t "category" (.str "")⟩]
          else [])) := by
    funext acc t
    by_cases hc : pyGet t "category" (.str "") ∈ valid
    · simp [hc]
    · simp [hc]
  rw [categoryCheck, if_neg (by simp [hne]), hbody, foldl_concatMap,
    flatMap_ite_filter_map]
  simp

/-- The string the id-format check feeds to the regex when it does not raise:
`term.get("id", "")` as a string. -/
def idStr (t : TermDict) : String :=
  match pyGet t "id" (.str "") with
  | .str s => s
  | _ => ""

theorem idFormat_aux :
    ∀ (ts : List TermDict) (acc fs : List IdFormatFinding),
      ts.foldlM idFormatStep acc = .ok fs →
      fs = acc ++ (ts.filter (fun t => !idPatternMatch (idStr t))).map
        (fun t => ⟨.fatal, idStr t, pyGet t "_source_file" .null⟩)
  | [], acc, fs, h => by
    simp only [List.foldlM_nil] at h
    cases h
    simp
  | t :: ts, acc, fs, h => by
    rw [List.foldlM_cons] at h
    cases hid : pyGet t "id" (.str "") with
    | str s =>
      by_cases hm : idPatternMatch s = true
      · have hstep : idFormatStep acc t = .ok acc := by
          simp [idFormatStep, hid, hm]
        rw [hstep] at h
        have hrec := idFormat_aux ts acc fs h
        simp [List.filter_cons, idStr, hid, hm, hrec]
      · have hm' : idPatternMatch s = false := by simpa using hm
        have hstep : idFormatStep acc t =
            .ok (acc ++ [⟨.fatal, s, pyGet t "_source_file" .null⟩]) := by
          simp [idFormatStep, hid, hm']
        rw [hstep] at h
        have hrec := idFormat_aux ts _ fs h
        simp [List.filter_cons, idStr, hid, hm', hrec]
    | null =>
      have hstep : idFormatStep acc t = .error "TypeError" := by simp [idFormatStep, hid]
      rw [hstep] at h
      exact nomatch h
    | bool b =>
      have hstep : idFormatStep acc t = .error "TypeError" := by simp [idFormatStep, hid]
      rw [hstep] at h
      exact nomatch h
    | int n =>
      have hstep : idFormatStep acc t = .error "TypeError" := by simp [idFormatStep, hid]
      rw [hstep] at h
      exact nomatch h
    | list xs =>
      have hstep : idFormatStep acc t = .error "TypeError" := by simp [idFormatStep, hid]
      rw [hstep] at h
      exact nomatch h
    | map m =>
      have hstep : idFormatStep acc t = .error "TypeError" := by simp [idFormatStep, hid]
      rw [hstep] at h
      exact nomatch h

theorem dupFold_severity :
    ∀ (ts : List TermDict) (seen : List (Yaml × Yaml)) (f : DupFinding),
      f ∈ dupFold ts seen → f.severity = .fatal
  | [], _, f, h => by simp [dupFold] at h
  | t :: ts, seen, f, h => by
    rw [dupFold] at h
    cases hl : List.lookup (idValue t) seen with
    | some first =>
      rw [hl] at h
      rcases List.mem_cons.mp h with h1 | h1
      · rw [h1]
      · exact dupFold_severity ts seen f h1
    | none =>
      rw [hl] at h
      exact dupFold_severity ts _ f h

theorem length_filter_flip {p q : Yaml → Bool} :
    ∀ (l : List Yaml), l.Nodup → ∀ a, a ∈ l → p a = true → q a = false →
      (∀ x ∈ l, x ≠ a → p x = q x) →
      (l.filter p).length = (l.filter q).length + 1
  | [], _, a, ha, _, _, _ => absurd ha (List.not_mem_nil a)
  | b :: l, hnd, a, ha, hpa, hqa, hagree => by
    have hndl : l.Nodup := (List.nodup_cons.mp hnd).2
    rcases List.mem_cons.mp ha with hab | hal
    · subst hab
      have hnotin : a ∉ l := (List.nodup_cons.mp hnd).1
      have hfl : l.filter p = l.filter q := by
        apply List.filter_congr
        intro x hx
        exact hagree x (List.mem_cons_of_mem a hx) (fun he => hnotin (he ▸ hx))
      simp [List.filter_cons, hpa, hqa, hfl]
    · have hba : b ≠ a := by
        intro he
        exact (List.nodup_cons.mp hnd).1 (he ▸ hal)
      have hb : p b = q b := hagree b (List.mem_cons_self b l) hba
      have hrec := length_filter_flip l hndl a hal hpa hqa
        (fun x hx hxa => hagree x (List.mem_cons_of_mem b hx) hxa)
      cases hqb : q b with
      | true => simp [List.filter_cons, hb, hqb, hrec]
      | false => simp [List.filter_cons, hb, hqb, hrec]

theorem dupFold_length :
    ∀ (ts : List TermDict) (seen : List (Yaml × Yaml)),
      (dupFold ts seen).length
        + ((ts.map idValue).dedup.filter
            (fun i => (List.lookup i seen).isNone)).length
      = ts.length
  | [], seen => by simp [dupFold]
  | t :: ts, seen => by
    cases hl : List.lookup (idValue t) seen with
    | some first =>
      have hd : dupFold (t :: ts) seen =
          ⟨.fatal, idValue t, first, pyGet t "_source_file" .null⟩ :: dupFold ts seen := by
        rw [dupFold, hl]
      rw [hd]
      have hfe : ((t :: ts).map idValue).dedup.filter
            (fun i => (List.lookup i seen).isNone) =
          (ts.map idValue).dedup.filter (fun i => (List.lookup i seen).isNone) := by
        by_cases hm : idValue t ∈ ts.map idValue
        · rw [List.map_cons, List.dedup_cons_of_mem hm]
        · rw [List.map_cons, List.dedup_cons_of_not_mem hm, List.filter_cons]
          simp [hl]
      have ih := dupFold_length ts seen
      simp only [hfe, List.length_cons]
      omega
    | none =>
      have hd : dupFold (t :: ts) seen =
          dupFold ts (seen ++ [(idValue t, pyGet t "_source_file" .null)]) := by
        rw [dupFold, hl]
      rw [hd]
      have ih := dupFold_length ts (seen ++ [(idValue t, pyGet t "_source_file" .null)])
      have hlookup : ∀ i : Yaml, i ≠ idValue t →
          List.lookup i (seen ++ [(idValue t, pyGet t "_source_file" .null)]) =
            List.lookup i seen := by
        intro i hi
        rw [lookup_append]
        cases hls : List.lookup i seen with
        | some v => rfl
        | none =>
          have : (i == idValue t) = false := by simpa using hi
          simp [List.lookup, this]
      have hlookup_t : List.lookup (idValue t)
          (seen ++ [(idValue t, pyGet t "_source_file" .null)]) =
            some (pyGet t "_source_file" .null) := by
        rw [lookup_append, hl]
        simp [List.lookup]
      by_cases hm : idValue t ∈ ts.map idValue
      · have hdd : ((t :: ts).map idValue).dedup = (ts.map idValue).dedup := by
          rw [List.map_cons, List.dedup_cons_of_mem hm]
        have hflip : ((ts.map idValue).dedup.filter
              (fun i => (List.lookup i seen).isNone)).length =
            ((ts.map idValue).dedup.filter
              (fun i => (List.lookup i
                (seen ++ [(idValue t, pyGet t "_source_file" .null)])).isNone)).length
              + 1 := by
          apply length_filter_flip (ts.map idValue).dedup (List.nodup_dedup _)
            (idValue t) (List.mem_dedup.mpr hm) (by simp [hl]) (by simp [hlookup_t])
          intro x _ hx
          rw [hlookup x hx]
        rw [hdd]
        simp only [List.length_cons]
        omega
      · have hdd : ((t :: ts).map idValue).dedup =
            idValue t :: (ts.map idValue).dedup := by
          rw [List.map_cons, List.dedup_cons_of_not_mem hm]
        have hfc : ∀ x ∈ (ts.map idValue).dedup,
            (fun i => (List.lookup i seen).isNone) x =
              (fun i => (List.lookup i
                (seen ++ [(idValue t, pyGet t "_source_file" .null)])).isNone) x := by
          intro x hx
          have hxne : x ≠ idValue t := fun he => hm (he ▸ List.mem_dedup.mp hx)
          simp [hlookup x hxne]
        rw [hdd, List.filter_cons]
        simp only [hl, Option.isNone_none, if_pos]
        rw [List.filter_congr hfc]
        simp only [List.length_cons]
        omega

theorem duplicateIdFindings_length (ts : List TermDict) :
    (duplicateIdFindings ts).length + (ts.map idValue).dedup.length = ts.length := by
  have h := dupFold_length ts []
  have hfe : (ts.map idValue).dedup.filter
      (fun i => (List.lookup i ([] : List (Yaml × Yaml))).isNone) =
        (ts.map idValue).dedup := by
    rw [List.filter_eq_self]
    intro a _
    rfl
  rw [duplicateIdFindings]
  rw [hfe] at h
  exact h

theorem duplicateIdFindings_nil_iff (ts : List TermDict) :
    duplicateIdFindings ts = [] ↔ (ts.map idValue).Nodup := by
  have h := duplicateIdFindings_length ts
  constructor
  · intro he
    rw [he] at h
    simp only [List.length_nil, Nat.zero_add] at h
    have hlen : (ts.map idValue).dedup.length = (ts.map idValue).length := by
      rw [h, List.length_map]
    have : (ts.map idValue).dedup = ts.map idValue :=
      (List.dedup_sublist _).eq_of_length hlen
    exact List.dedup_eq_self.mp this
  · intro hnd
    have : (ts.map idValue).dedup = ts.map idValue := List.dedup_eq_self.mpr hnd
    rw [this, List.length_map] at h
    have : (duplicateIdFindings ts).length = 0 := by omega
    exact List.length_eq_zero.mp this

@[simp] theorem except_pure_eq {α : Type} (a : α) :
    (pure a : Except String α) = .ok a := rfl

@[simp] theorem except_bind_ok {α β : Type} (a : α) (f : α → Except String β) :
    (Except.ok a >>= f) = f a := rfl

@[simp] theorem except_bind_err {α β : Type} (e : String) (f : α → Except String β) :
    ((Except.error e : Except String α) >>= f) = .error e := rfl

@[simp] theorem except_map_ok {α β : Type} (f : α → β) (a : α) :
    (f <$> (Except.ok a : Except String α)) = .ok (f a) := rfl

@[simp] theorem except_map_err {α β : Type} (f : α → β) (e : String) :
    (f <$> (Except.error e : Except String α)) = .error e := rfl

theorem getTermsStep_skip (acc : List TermDict) (g : SourceGroup)
    (h : g.2.truthy = false ∨ pyContains "terms" g.2 = .ok false) :
    getTermsStep acc g = .ok acc := by
  rcases h with h | h
  · simp [getTermsStep, h]
  · rcases htr : g.2.truthy with _ | _
    · simp [getTermsStep, htr]
    · simp [getTermsStep, htr, h]

theorem get_all_terms_skip (gs1 gs2 : List SourceGroup) (g : SourceGroup)
    (h : g.2.truthy = false ∨ pyContains "terms" g.2 = .ok false) :
    get_all_terms (gs1 ++ g :: gs2) = get_all_terms (gs1 ++ gs2) := by
  rw [get_all_terms, get_all_terms, List.foldlM_append, List.foldlM_append]
  cases hb : List.foldlM getTermsStep [] gs1 with
  | error e => rfl
  | ok b =>
    show (List.foldlM getTermsStep b (g :: gs2)) = List.foldlM getTermsStep b gs2
    rw [List.foldlM_cons, getTermsStep_skip b g h]
    rfl

theorem getTermsStep_emptyGroup (acc : List TermDict) (name : String) :
    getTermsStep acc (name, Yaml.map [("terms", Yaml.list [])]) = .ok acc := by
  simp [getTermsStep, Yaml.truthy, pyContains, pyIndexStr, extractTermDicts,
    List.lookup, List.mapM.loop]

theorem get_all_terms_append_empty (gs : List SourceGroup) (name : String) :
    get_all_terms (gs ++ [(name, Yaml.map [("terms", Yaml.list [])])]) =
      get_all_terms gs := by
  rw [get_all_terms, get_all_terms, List.foldlM_append]
  cases hb : List.foldlM getTermsStep [] gs with
  | error e => rfl
  | ok b =>
    show List.foldlM getTermsStep b [(name, Yaml.map [("terms", Yaml.list [])])] =
      Except.ok b
    rw [List.foldlM_cons, getTermsStep_emptyGroup b name]
    rfl

theorem lookup_ne_nil {α β : Type} [BEq α] {k : α} {l : List (α × β)} {v : β}
    (h : List.lookup k l = some v) : l ≠ [] := by
  intro he
  subst he
  simp at h

/-- The term records one well-formed source group holds, read off the
document: the `terms` sequence of its top-level mapping. -/
def groupTerms (g : SourceGroup) : List Yaml :=
  match g.2 with
  | .map kvs =>
    match List.lookup "terms" kvs with
    | some (.list ts) => ts
    | _ => []
  | _ => []

theorem load_aux :
    ∀ (l : List SourceGroup) (acc : List Yaml),
      (∀ g ∈ l, ∃ kvs ts, g.2 = Yaml.map kvs ∧
        List.lookup "terms" kvs = some (Yaml.list ts)) →
      l.foldlM loadTermsStep acc = .ok (acc ++ l.flatMap groupTerms)
  | [], acc, _ => by simp [List.foldlM_nil]
  | g :: l, acc, h => by
    obtain ⟨kvs, ts, hg, hlk⟩ := h g (List.mem_cons_self g l)
    have hne : kvs ≠ [] := lookup_ne_nil hlk
    have htr : g.2.truthy = true := by
      rw [hg]
      simpa [Yaml.truthy] using hne
    have hstep : loadTermsStep acc g = .ok (acc ++ ts) := by
      have htr2 : (Yaml.map kvs).truthy = true := hg ▸ htr
      simp [loadTermsStep, htr2, hg, pyContains, hlk, pyIndexStr, pyIterElems]
    rw [List.foldlM_cons, hstep]
    have hrec := load_aux l (acc ++ ts)
      (fun g' hg' => h g' (List.mem_cons_of_mem g hg'))
    show List.foldlM loadTermsStep (acc ++ ts) l = _
    rw [hrec]
    have hgt : groupTerms g = ts := by simp [groupTerms, hg, hlk]
    simp [List.flatMap_cons, hgt]

theorem termsKeyStep_shape (acc : List String) (g : SourceGroup) :
    (termsKeyStep acc g = .error "TypeError" ∧ termsKeyStep [] g = .error "TypeError")
    ∨ ∃ d, termsKeyStep acc g = .ok (acc ++ d) ∧ termsKeyStep [] g = .ok d := by
  rcases g with ⟨n, d⟩
  cases d with
  | null => exact Or.inl ⟨rfl, rfl⟩
  | bool b => exact Or.inl ⟨rfl, rfl⟩
  | int m => exact Or.inl ⟨rfl, rfl⟩
  | str s =>
    by_cases hc : charsInfix "terms".data s.data = true
    · refine Or.inl ?_
      constructor <;> simp [termsKeyStep, pyContains, hc, pyIndexStr]
    · have hc' : charsInfix "terms".data s.data = false := by simpa using hc
      refine Or.inr ⟨[n], ?_, ?_⟩ <;> simp [termsKeyStep, pyContains, hc', pyIndexStr]
  | list xs =>
    by_cases hc : xs.any (fun x => x == Yaml.str "terms") = true
    · refine Or.inl ?_
      constructor <;> simp [termsKeyStep, pyContains, hc, pyIndexStr]
    · have hc' : xs.any (fun x => x == Yaml.str "terms") = false :=
        Bool.eq_false_iff.mpr hc
      refine Or.inr ⟨[n], ?_, ?_⟩ <;> simp [termsKeyStep, pyContains, hc', pyIndexStr]
  | map kvs =>
    cases hlk : List.lookup "terms" kvs with
    | none =>
      refine Or.inr ⟨[n], ?_, ?_⟩ <;> simp [termsKeyStep, pyContains, hlk, pyIndexStr]
    | some v =>
      cases v with
      | list ts =>
        refine Or.inr ⟨[], ?_, ?_⟩ <;>
          simp [termsKeyStep, pyContains, hlk, pyIndexStr]
      | null =>
        refine Or.inr ⟨[n], ?_, ?_⟩ <;>
          simp [termsKeyStep, pyContains, hlk, pyIndexStr]
      | bool b =>
        refine Or.inr ⟨[n], ?_, ?_⟩ <;>
          simp [termsKeyStep, pyContains, hlk, pyIndexStr]
      | int m =>
        refine Or.inr ⟨[n], ?_, ?_⟩ <;>
          simp [termsKeyStep, pyContains, hlk, pyIndexStr]
      | str s =>
        refine Or.inr ⟨[n], ?_, ?_⟩ <;>
          simp [termsKeyStep, pyContains, hlk, pyIndexStr]
      | map m =>
        refine Or.inr ⟨[n], ?_, ?_⟩ <;>
          simp [termsKeyStep, pyContains, hlk, pyIndexStr]

theorem termsKey_aux :
    ∀ (l : List SourceGroup) (acc : List String),
      l.foldlM termsKeyStep acc = .ok [] →
      acc = [] ∧ ∀ g ∈ l, termsKeyStep [] g = .ok []
  | [], acc, h => by
    simp only [List.foldlM_nil] at h
    cases h
    exact ⟨rfl, by simp⟩
  | g :: l, acc, h => by
    rw [List.foldlM_cons] at h
    rcases termsKeyStep_shape acc g with ⟨herr, _⟩ | ⟨d, hok, h0⟩
    · rw [herr] at h
      exact nomatch h
    · rw [hok] at h
      have hrec := termsKey_aux l (acc ++ d) h
      have hnil : acc = [] ∧ d = [] := by
        have := hrec.1
        exact List.append_eq_nil.mp this
      refine ⟨hnil.1, ?_⟩
      intro g' hg'
      rcases List.mem_cons.mp hg' with he | hm
      · rw [he, h0, hnil.2]
      · exact hrec.2 g' hm

theorem termsKey_aux2 :
    ∀ (l : List SourceGroup) (acc : List String),
      (∀ g ∈ l, termsKeyStep [] g = .ok []) →
      l.foldlM termsKeyStep acc = .ok acc
  | [], acc, _ => by simp [List.foldlM_nil]
  | g :: l, acc, h => by
    rw [List.foldlM_cons]
    rcases termsKeyStep_shape acc g with ⟨_, herr0⟩ | ⟨d, hok, h0⟩
    · rw [h g (List.mem_cons_self g l)] at herr0
      exact nomatch herr0
    · have hd : d = [] := by
        have := h g (List.mem_cons_self g l)
        rw [h0] at this
        cases this
        rfl
      rw [hok, hd]
      simp only [List.append_nil, except_bind_ok]
      exact termsKey_aux2 l acc (fun g' hg' => h g' (List.mem_cons_of_mem g hg'))

theorem termsKeyOffenders_ok_nil_iff (groups : List SourceGroup) :
    termsKeyOffenders groups = .ok [] ↔
      ∀ g ∈ groups, termsKeyStep [] g = .ok [] := by
  constructor
  · intro h
    exact (termsKey_aux groups [] h).2
  · intro h
    exact termsKey_aux2 groups [] h

theorem yamlSyntaxOffenders_eq (groups : List SourceGroup) :
    yamlSyntaxOffenders groups =
      groups.flatMap (fun g => match g.2 with | Yaml.map _ => [] | _ => [g.1]) := by
  have hbody : (fun (acc : List String) (g : SourceGroup) =>
      match g.2 with
      | Yaml.map _ => acc
      | _ => acc ++ [g.1]) =
      (fun acc g =>
        acc ++ (match g.2 with | Yaml.map _ => [] | _ => [g.1])) := by
    funext acc g
    cases g.2 <;> simp
  rw [yamlSyntaxOffenders, hbody, foldl_concatMap]
  simp

theorem group_clean_iff (g : SourceGroup) :
    ((match g.2 with | Yaml.map _ => ([] : List String) | _ => [g.1]) = [] ∧
      termsKeyStep [] g = .ok []) ↔ structurallyValid g.2 = true := by
  rcases g with ⟨n, d⟩
  cases d with
  | null => simp [structurallyValid]
  | bool b => simp [structurallyValid]
  | int m => simp [structurallyValid]
  | str s => simp [structurallyValid]
  | list xs => simp [structurallyValid]
  | map kvs =>
    simp only [true_and]
    cases hlk : List.lookup "terms" kvs with
    | none =>
      simp [termsKeyStep, pyContains, hlk, structurallyValid]
    | some v =>
      cases v <;>
        simp [termsKeyStep, pyContains, hlk, pyIndexStr, structurallyValid]

/-- Whether a YAML value is a mapping (Python `isinstance(x, dict)`). -/
def isYamlMap : Yaml → Bool
  | .map _ => true
  | _ => false

/-- Scenario E fixture: twelve terms, each with a `related_terms` entry
naming a term id that does not exist. -/
def scenarioTwelve : List TermDict :=
  ["ta", "tb", "tc", "td", "te", "tf", "tg", "th", "ti", "tj", "tk", "tl"].map
    (fun n => [("id", Yaml.str n),
               ("related_terms", Yaml.list [Yaml.str "future_term"]),
               ("_source_file", Yaml.str "attack_types.yaml")])

/-- Scenario B fixture: two source groups, each holding one term with id
`apt`. -/
def scenarioDupGroups : List SourceGroup :=
  [("attack_types.yaml", .map [("terms", .list [.map [("id", .str "apt")]])]),
   ("malware.yaml", .map [("terms", .list [.map [("id", .str "apt")]])])]

/-- A fully populated term record used to exercise the export round trip. -/
def exportFixtureTerm : TermDict :=
  [("id", Yaml.str "phishing"), ("term_en", Yaml.str "Phishing"),
   ("term_zh", Yaml.str "fishing"),
   ("definitions", Yaml.map [("brief", Yaml.str "b")]),
   ("category", Yaml.str "attack_types"),
   ("tags", Yaml.list [Yaml.str "email"]),
   ("_source_file", Yaml.str "attack_types.yaml")]

theorem idPatternMatch_iff (s : String) :
    idPatternMatch s = true ↔
      (isIdCore s = true ∨
        ∃ s0, isIdCore s0 = true ∧ s = s0.push (Char.ofNat 10)) := by
  rw [idPatternMatch, Bool.or_eq_true]
  constructor
  · rintro (hc | hlast)
    · exact Or.inl hc
    · rcases hl : s.data.getLast? with _ | c
      · rw [hl] at hlast
        exact absurd hlast (by simp)
      · rw [hl] at hlast
        have hc : c = Char.ofNat 10 ∧ isIdCore ⟨s.data.dropLast⟩ = true := by
          simpa [Bool.and_eq_true] using hlast
        refine Or.inr ⟨⟨s.data.dropLast⟩, hc.2, ?_⟩
        have hne : s.data ≠ [] := by
          intro he
          rw [he] at hl
          simp at hl
        have hdata : s.data = s.data.dropLast ++ [c] := by
          conv_lhs => rw [← List.dropLast_append_getLast hne]
          have : s.data.getLast hne = c := by
            rw [List.getLast_eq_iff_getLast?_eq_some]
            exact hl
          rw [this]
        cases s with
        | mk d =>
          show String.mk d = String.push ⟨d.dropLast⟩ (Char.ofNat 10)
          rw [String.push, ← hc.1]
          exact congrArg String.mk hdata
  · rintro (hc | ⟨s0, hc0, hpush⟩)
    · exact Or.inl hc
    · right
      subst hpush
      cases s0 with
      | mk d0 =>
        rw [String.push]
        simp [List.getLast?_concat, List.dropLast_concat]
        exact hc0

/-! ## Claim theorems -/

/-- C1: the id-uniqueness check reports a fatal finding iff two distinct
terms across all source groups share the same id value (equivalently, the
list of id values has a repetition), it emits exactly one finding per
duplicate occurrence beyond the first (`findings + distinct ids = terms`),
and on Scenario B — two source groups each holding one term with
id `apt` — it produces exactly one fatal finding naming both source
groups. -/
theorem duplicate_id_check_correct (ts : List TermDict) :
    (duplicateIdFindings ts ≠ [] ↔ ¬ (ts.map idValue).Nodup)
    ∧ (duplicateIdFindings ts).length + (ts.map idValue).dedup.length = ts.length
    ∧ (∀ f ∈ duplicateIdFindings ts, f.severity = .fatal)
    ∧ (get_all_terms scenarioDupGroups).map duplicateIdFindings =
        .ok [⟨.fatal, .str "apt", .str "attack_types.yaml", .str "malware.yaml"⟩] := by
  refine ⟨?_, duplicateIdFindings_length ts, ?_, rfl⟩
  · exact not_congr (duplicateIdFindings_nil_iff ts)
  · intro f hf
    exact dupFold_severity ts [] f hf

/-- C1 witness: on a concrete three-term corpus with a repeated id the check
fires. -/
theorem duplicate_id_check_correct_witness :
    duplicateIdFindings
      [[("id", Yaml.str "apt"), ("_source_file", Yaml.str "a.yaml")],
       [("id", Yaml.str "xss"), ("_source_file", Yaml.str "a.yaml")],
       [("id", Yaml.str "apt"), ("_source_file", Yaml.str "b.yaml")]] ≠ [] :=
  (duplicate_id_check_correct _).1.mpr (by decide)

/-- C2 (amended): a reference value is reported iff it is a non-empty string
that Python's `re.match` of `https?://[^\s\"'<>]+` rejects — i.e. iff it
does not START with `http://` or `https://` followed by at least one
non-whitespace, non-quote, non-angle-bracket character; content after that
first character is not examined, so trailing garbage is accepted.  Every
value the spec's full URL shape accepts is accepted, each finding is fatal
and names the reference key, and Scenario D (`references: {osint:
"not-a-url"}`) yields exactly one fatal finding for key `osint`. -/
theorem url_shape_check_amended :
    (∀ (source termId : Yaml) (kvs : List (String × Yaml)),
        urlFindingsOfRefs source termId kvs =
          (kvs.filter urlBadEntry).map (fun kv => ⟨.fatal, source, termId, kv.1⟩))
    ∧ (∀ s, specUrlShape s = true → urlPatternMatch s = true)
    ∧ urlCheck [[("id", .str "osint_tool"),
                 ("_source_file", .str "technologies.yaml"),
                 ("references", .map [("osint", .str "not-a-url")])]] =
        [⟨.fatal, .str "technologies.yaml", .str "osint_tool", "osint"⟩] := by
  refine ⟨urlFindingsOfRefs_eq, ?_, rfl⟩
  intro s h
  rw [specUrlShape, Bool.or_eq_true] at h
  rw [urlPatternMatch, Bool.or_eq_true]
  rcases h with h | h
  · left
    rw [Bool.and_eq_true] at h ⊢
    refine ⟨h.1, ?_⟩
    rcases h with ⟨_, htail⟩
    rw [specUrlShape.specTail] at htail
    cases hd : s.data.drop 7 with
    | nil => rw [hd] at htail; simp at htail
    | cons c rest =>
      rw [hd] at htail
      rw [urlPatternMatch.matchTail]
      have : (c :: rest).all urlAllowedChar = true := by
        simpa [Bool.and_eq_true] using htail
      exact (List.all_eq_true.mp this c (List.mem_cons_self c rest))
  · right
    rw [Bool.and_eq_true] at h ⊢
    refine ⟨h.1, ?_⟩
    rcases h with ⟨_, htail⟩
    rw [specUrlShape.specTail] at htail
    cases hd : s.data.drop 8 with
    | nil => rw [hd] at htail; simp at htail
    | cons c rest =>
      rw [hd] at htail
      rw [urlPatternMatch.matchTail]
      have : (c :: rest).all urlAllowedChar = true := by
        simpa [Bool.and_eq_true] using htail
      exact (List.all_eq_true.mp this c (List.mem_cons_self c rest))

/-- C2 counterexample: `http://a b` fails the spec's full URL shape (it
contains a space after the matched part), yet the check reports nothing,
because `re.match` only anchors at the start of the value. -/
theorem url_shape_check_cex :
    urlCheck [[("id", .str "t1"), ("_source_file", .str "f.yaml"),
               ("references", .map [("osint", .str "http://a b")])]] = []
    ∧ specUrlShape "http://a b" = false := by
  exact ⟨rfl, by decide⟩

/-- C2 witness: the characterization applied to a concrete references dict,
and the spec-to-code direction applied to a concrete well-shaped URL. -/
theorem url_shape_check_amended_witness :
    urlFindingsOfRefs (Yaml.str "f.yaml") (Yaml.str "t1")
        [("good", Yaml.str "https://example.com/x"), ("bad", Yaml.str "not-a-url")] =
      [⟨.fatal, Yaml.str "f.yaml", Yaml.str "t1", "bad"⟩]
    ∧ urlPatternMatch "https://example.com/x" = true := by
  constructor
  · rw [(url_shape_check_amended).1 (Yaml.str "f.yaml") (Yaml.str "t1")
      [("good", Yaml.str "https://example.com/x"), ("bad", Yaml.str "not-a-url")]]
    decide
  · exact (url_shape_check_amended).2.1 "https://example.com/x" (by decide)

/-- C3: the minimum-corpus-size check yields a single repository-level fatal
finding iff the total number of loaded terms is strictly below 100; a corpus
of exactly 100 passes, one of 99 fails, and appending a structurally valid
source group with zero terms changes neither the loaded terms nor the load
outcome. -/
theorem minimum_corpus_size_correct (gs : List SourceGroup) (ts : List TermDict)
    (h : get_all_terms gs = .ok ts) :
    (minCountFindings ts ≠ [] ↔ ts.length < 100)
    ∧ (minCountFindings ts).length ≤ 1
    ∧ (∀ f ∈ minCountFindings ts, f.severity = .fatal)
    ∧ (ts.length = 100 → minCountFindings ts = [])
    ∧ (ts.length = 99 → minCountFindings ts = [⟨.fatal, 99⟩])
    ∧ get_all_terms (gs ++ [("zz_extra.yaml", Yaml.map [("terms", Yaml.list [])])]) =
        .ok ts := by
  refine ⟨?_, ?_, ?_, ?_, ?_, ?_⟩
  · by_cases hlen : 100 ≤ ts.length <;>
      simp [minCountFindings, hlen] <;> omega
  · by_cases hlen : 100 ≤ ts.length <;> simp [minCountFindings, hlen]
  · intro f hf
    by_cases hlen : 100 ≤ ts.length
    · simp [minCountFindings, hlen] at hf
    · simp [minCountFindings, hlen] at hf
      rw [hf]
  · intro hlen
    simp [minCountFindings, hlen]
  · intro hlen
    simp [minCountFindings, hlen]
  · rw [get_all_terms_append_empty]
    exact h

/-- C3 witness: a single source group holding 99 terms loads successfully and
the check emits exactly the one fatal repository-level finding. -/
theorem minimum_corpus_size_correct_witness :
    minCountFindings
      (List.replicate 99 [("id", Yaml.str "apt"), ("_source_file", Yaml.str "a.yaml")]) =
      [⟨.fatal, 99⟩] :=
  (minimum_corpus_size_correct
    [("a.yaml", Yaml.map [("terms",
        Yaml.list (List.replicate 99 (Yaml.map [("id", Yaml.str "apt")])))])]
    (List.replicate 99 [("id", Yaml.str "apt"), ("_source_file", Yaml.str "a.yaml")])
    rfl).2.2.2.2.1 (by simp)

/-- C4: the related-term-existence check never produces a fatal finding —
every dangling reference yields only a warning — and its build-visible alert
is printed iff the repository-wide count of dangling references strictly
exceeds 10; with twelve terms each referencing a nonexistent id the alert
fires (count 12 > 10) while the check still contributes no fatal finding. -/
theorem related_terms_check_correct (ts : List TermDict) :
    (∀ f ∈ missingReferences ts, f.severity = .warning)
    ∧ (relatedAlert ts = true ↔ (missingReferences ts).length > 10)
    ∧ (relatedAlert scenarioTwelve = true
        ∧ (missingReferences scenarioTwelve).length = 12
        ∧ ∀ f ∈ missingReferences scenarioTwelve, f.severity = .warning) := by
  refine ⟨?_, ?_, by decide, by decide, by decide⟩
  · intro f hf
    rw [missingReferences_eq] at hf
    rcases List.mem_flatMap.mp hf with ⟨t, _, hf2⟩
    cases hrel : pyGet t "related_terms" (.list []) with
    | list refs =>
      rw [hrel] at hf2
      rcases List.mem_map.mp hf2 with ⟨r, _, he⟩
      rw [← he]
    | null => rw [hrel] at hf2; simp at hf2
    | bool b => rw [hrel] at hf2; simp at hf2
    | int n => rw [hrel] at hf2; simp at hf2
    | str s => rw [hrel] at hf2; simp at hf2
    | map m => rw [hrel] at hf2; simp at hf2
  · constructor
    · intro h
      rw [relatedAlert, Bool.and_eq_true] at h
      exact of_decide_eq_true h.2
    · intro h
      have hne : (missingReferences ts).isEmpty = false := by
        cases hl : missingReferences ts
        · rw [hl] at h
          simp at h
        · rfl
      simp [relatedAlert, hne, h]

/-- C4 witness: the alert criterion applied to the Scenario E corpus. -/
theorem related_terms_check_correct_witness :
    relatedAlert scenarioTwelve = true :=
  (related_terms_check_correct scenarioTwelve).2.1.mpr (by decide)

/-- C5 (amended): when the Category Registry yields a non-empty id list, the
category check reports one fatal finding for exactly those terms whose
`category` value is not among the ids; when the categories file is absent,
or yields an empty id list, the check is skipped and reports nothing.  A
categories file that is present but malformed, however, raises instead of
being skipped. -/
theorem category_validity_check_amended :
    (∀ ts : List TermDict, categoryCheck [] ts = [])
    ∧ (∀ ts : List TermDict, categoryCheckFull none ts = .ok [])
    ∧ (∀ (valid : List Yaml) (ts : List TermDict), valid ≠ [] →
        (categoryCheck valid ts).length =
          ts.countP (fun t => !valid.contains (pyGet t "category" (.str "")))
        ∧ ∀ f ∈ categoryCheck valid ts, f.severity = .fatal)
    ∧ categoryCheckFull
        (some (Yaml.map [("categories",
          Yaml.list [Yaml.map [("id", Yaml.str "attack_types")]])]))
        [[("id", Yaml.str "x1"), ("category", Yaml.str "nonexistent_cat"),
          ("_source_file", Yaml.str "a.yaml")]] =
      .ok [⟨.fatal, Yaml.str "a.yaml", Yaml.str "x1", Yaml.str "nonexistent_cat"⟩] := by
  refine ⟨fun ts => rfl, fun ts => rfl, ?_, rfl⟩
  intro valid ts hne
  rw [categoryCheck_eq valid ts hne]
  constructor
  · rw [List.length_map, List.countP_eq_length_filter]
  · intro f hf
    rcases List.mem_map.mp hf with ⟨t, _, he⟩
    rw [← he]

/-- C5 counterexample: a categories file that exists but parses to a null
document makes the suite raise AttributeError — the check is neither skipped
nor silent, contradicting the claim that an unloadable registry always skips
the check. -/
theorem category_validity_check_cex :
    categoryCheckFull (some Yaml.null) [] = .error "AttributeError" := rfl

/-- C5 witness: the fatal-per-unknown-category count applied to a concrete
registry and corpus. -/
theorem category_validity_check_amended_witness :
    (categoryCheck [Yaml.str "attack_types"]
      [[("id", Yaml.str "x1"), ("category", Yaml.str "nonexistent_cat")],
       [("id", Yaml.str "x2"), ("category", Yaml.str "attack_types")]]).length = 1 := by
  rw [(category_validity_check_amended).2.2.1 [Yaml.str "attack_types"]
    [[("id", Yaml.str "x1"), ("category", Yaml.str "nonexistent_cat")],
     [("id", Yaml.str "x2"), ("category", Yaml.str "attack_types")]] (by decide) |>.1]
  decide

/-- C6 (amended): for string ids the id-format check reports one fatal
finding exactly for the terms whose id (the empty string when the field is
absent) fails Python's `re.match` of `^[a-z][a-z0-9_]*$` — and under
Python's semantics the `$` anchor also matches just before one trailing
newline, so the accepted ids are exactly the strings of shape
`[a-z][a-z0-9_]*`, optionally followed by a single final newline. -/
theorem id_format_check_amended :
    (∀ (ts : List TermDict) (fs : List IdFormatFinding),
        idFormatCheck ts = .ok fs →
        fs = (ts.filter (fun t => !idPatternMatch (idStr t))).map
            (fun t => ⟨.fatal, idStr t, pyGet t "_source_file" .null⟩)
        ∧ fs.length = ts.countP (fun t => !idPatternMatch (idStr t))
        ∧ (fs = [] ↔ ∀ t ∈ ts, idPatternMatch (idStr t) = true)
        ∧ (∀ f ∈ fs, f.severity = .fatal))
    ∧ (∀ s, idPatternMatch s = true ↔
        (isIdCore s = true ∨ ∃ s0, isIdCore s0 = true ∧ s = s0.push (Char.ofNat 10)))
    ∧ idFormatCheck [[("term_en", Yaml.str "X")]] = .ok [⟨.fatal, "", Yaml.null⟩] := by
  refine ⟨?_, idPatternMatch_iff, rfl⟩
  intro ts fs h
  have he := idFormat_aux ts [] fs h
  simp only [List.nil_append] at he
  refine ⟨he, ?_, ?_, ?_⟩
  · rw [he, List.length_map, List.countP_eq_length_filter]
  · rw [he]
    constructor
    · intro hnil t ht
      have hfil : ts.filter (fun t => !idPatternMatch (idStr t)) = [] :=
        List.map_eq_nil_iff.mp hnil
      have := List.filter_eq_nil_iff.mp hfil t ht
      simpa using this
    · intro hall
      have hfil : ts.filter (fun t => !idPatternMatch (idStr t)) = [] := by
        rw [List.filter_eq_nil_iff]
        intro t ht
        simp [hall t ht]
      rw [hfil, List.map_nil]
  · intro f hf
    rw [he] at hf
    rcases List.mem_map.mp hf with ⟨t, _, hfe⟩
    rw [← hfe]

/-- C6 counterexample: the id `apt` followed by a newline character is
accepted by the check (no finding), although a newline is not a lowercase
letter, a digit or an underscore, so the claim's accepted-shape description
fails for this id. -/
theorem id_format_check_cex :
    idFormatCheck [[("id", Yaml.str "apt\n")]] = .ok []
    ∧ isIdCore "apt\n" = false := ⟨rfl, by decide⟩

/-- C6 witness: the characterization applied to a concrete corpus with one
well-formed and one ill-formed id. -/
theorem id_format_check_amended_witness :
    ([⟨.fatal, "Bad Id", Yaml.null⟩] : List IdFormatFinding).length =
      List.countP (fun t => !idPatternMatch (idStr t))
        [[("id", Yaml.str "apt")], [("id", Yaml.str "Bad Id")]] :=
  ((id_format_check_amended).1
    [[("id", Yaml.str "apt")], [("id", Yaml.str "Bad Id")]]
    [⟨.fatal, "Bad Id", Yaml.null⟩] rfl).2.1

/-- C7 (amended): the structural tests pass cleanly iff every source group's
document is a mapping with a `terms` key holding a sequence, so any
malformed group yields a fatal structural outcome; term loading silently
skips a group whose document is falsy or lacks a `terms` key, keeping every
other group's terms — but a truthy document whose `terms` entry is not a
sequence of mappings makes the whole load raise instead of being skipped. -/
theorem structural_validity_amended :
    (∀ groups : List SourceGroup,
        (yamlSyntaxOffenders groups = [] ∧ termsKeyOffenders groups = .ok []) ↔
          ∀ g ∈ groups, structurallyValid g.2 = true)
    ∧ (∀ (gs1 gs2 : List SourceGroup) (g : SourceGroup),
        (g.2.truthy = false ∨ pyContains "terms" g.2 = .ok false) →
        get_all_terms (gs1 ++ g :: gs2) = get_all_terms (gs1 ++ gs2)) := by
  constructor
  · intro groups
    rw [yamlSyntaxOffenders_eq, termsKeyOffenders_ok_nil_iff,
      List.flatMap_eq_nil_iff]
    constructor
    · rintro ⟨h1, h2⟩ g hg
      exact (group_clean_iff g).mp ⟨h1 g hg, h2 g hg⟩
    · intro h
      exact ⟨fun g hg => ((group_clean_iff g).mpr (h g hg)).1,
             fun g hg => ((group_clean_iff g).mpr (h g hg)).2⟩
  · exact get_all_terms_skip

/-- C7 counterexample: a group whose document is a mapping with a `terms`
key holding the integer 5 fails the structural shape — but instead of being
skipped while the other group's term is kept, the whole load raises
TypeError, dropping the valid group's terms too. -/
theorem structural_validity_cex :
    get_all_terms
        [("a.yaml", Yaml.map [("terms", Yaml.int 5)]),
         ("b.yaml", Yaml.map [("terms", Yaml.list [Yaml.map [("id", Yaml.str "apt")]])])] =
      .error "TypeError"
    ∧ structurallyValid (Yaml.map [("terms", Yaml.int 5)]) = false
    ∧ get_all_terms
        [("b.yaml", Yaml.map [("terms", Yaml.list [Yaml.map [("id", Yaml.str "apt")]])])] =
      .ok [[("id", Yaml.str "apt"), ("_source_file", Yaml.str "b.yaml")]] :=
  ⟨rfl, rfl, rfl⟩

/-- C7 witness: a null document and a document without a `terms` key are
skipped while the surrounding groups' terms survive, and the structural
tests flag a concrete malformed group. -/
theorem structural_validity_amended_witness :
    get_all_terms
        [("a.yaml", Yaml.map [("terms", Yaml.list [Yaml.map [("id", Yaml.str "apt")]])]),
         ("broken.yaml", Yaml.null),
         ("b.yaml", Yaml.map [("terms", Yaml.list [Yaml.map [("id", Yaml.str "xss")]])])] =
      get_all_terms
        [("a.yaml", Yaml.map [("terms", Yaml.list [Yaml.map [("id", Yaml.str "apt")]])]),
         ("b.yaml", Yaml.map [("terms", Yaml.list [Yaml.map [("id", Yaml.str "xss")]])])]
    ∧ ¬ ((yamlSyntaxOffenders [("broken.yaml", Yaml.null)] = [] ∧
          termsKeyOffenders [("broken.yaml", Yaml.null)] = .ok [])) := by
  constructor
  · exact (structural_validity_amended).2
      [("a.yaml", Yaml.map [("terms", Yaml.list [Yaml.map [("id", Yaml.str "apt")]])])]
      [("b.yaml", Yaml.map [("terms", Yaml.list [Yaml.map [("id", Yaml.str "xss")]])])]
      ("broken.yaml", Yaml.null) (Or.inl rfl)
  · intro hcl
    have := ((structural_validity_amended).1 [("broken.yaml", Yaml.null)]).mp hcl
      ("broken.yaml", Yaml.null) (by simp)
    simp [structurallyValid] at this

/-- C8: the export record of a term holds exactly the nine public fields in
order, never the `_source_file` provenance, and reading the record back
returns the term's `id`, `term_en`, `term_zh` and `category` values
unchanged. -/
theorem export_record_roundtrip (t : TermDict) (r : List (String × Yaml))
    (h : generate_term_json t = .ok r) :
    r.map Prod.fst = ["id", "term_en", "term_zh", "definitions", "category",
      "subcategory", "tags", "related_terms", "aliases"]
    ∧ List.lookup "_source_file" r = none
    ∧ List.lookup "id" r = List.lookup "id" t
    ∧ List.lookup "term_en" r = List.lookup "term_en" t
    ∧ List.lookup "term_zh" r = List.lookup "term_zh" t
    ∧ (∀ v, List.lookup "category" t = some v → List.lookup "category" r = some v) := by
  rw [generate_term_json] at h
  cases hid : List.lookup "id" t with
  | none => rw [hid] at h; exact nomatch h
  | some i =>
    cases hen : List.lookup "term_en" t with
    | none => rw [hid, hen] at h; exact nomatch h
    | some en =>
      cases hzh : List.lookup "term_zh" t with
      | none => rw [hid, hen, hzh] at h; exact nomatch h
      | some zh =>
        rw [hid, hen, hzh] at h
        cases h
        refine ⟨rfl, rfl, rfl, rfl, rfl, ?_⟩
        intro v hv
        show some (pyGet t "category" (.str "")) = some v
        rw [pyGet, hv]
        rfl

/-- C8 witness: the round trip on a concrete fully populated term, whose
export record is written out explicitly. -/
theorem export_record_roundtrip_witness :
    List.lookup "_source_file"
        [("id", Yaml.str "phishing"), ("term_en", Yaml.str "Phishing"),
         ("term_zh", Yaml.str "fishing"),
         ("definitions", Yaml.map [("brief", Yaml.str "b")]),
         ("category", Yaml.str "attack_types"), ("subcategory", Yaml.str ""),
         ("tags", Yaml.list [Yaml.str "email"]), ("related_terms", Yaml.list []),
         ("aliases", Yaml.map [])] = none
    ∧ List.lookup "category"
        [("id", Yaml.str "phishing"), ("term_en", Yaml.str "Phishing"),
         ("term_zh", Yaml.str "fishing"),
         ("definitions", Yaml.map [("brief", Yaml.str "b")]),
         ("category", Yaml.str "attack_types"), ("subcategory", Yaml.str ""),
         ("tags", Yaml.list [Yaml.str "email"]), ("related_terms", Yaml.list []),
         ("aliases", Yaml.map [])] = some (Yaml.str "attack_types") :=
  ⟨(export_record_roundtrip exportFixtureTerm _ rfl).2.1,
   (export_record_roundtrip exportFixtureTerm _ rfl).2.2.2.2.2
      (Yaml.str "attack_types") rfl⟩

/-- C9: loading the full term set is deterministic — permuting the directory
enumeration of the source groups (with distinct file names) never changes
the result, because the loader sorts the groups lexicographically by file
name first; on well-formed groups the result is exactly the concatenation of
each group's on-disk term sequence in sorted group order, and the sorted
order is a permutation of the input ordered by the lexicographic file-name
relation. -/
theorem load_all_terms_deterministic :
    (∀ gs1 gs2 : List SourceGroup, gs1.Perm gs2 → (gs1.map Prod.fst).Nodup →
        load_all_terms gs1 = load_all_terms gs2)
    ∧ (∀ gs : List SourceGroup,
        (∀ g ∈ gs, ∃ kvs ts, g.2 = Yaml.map kvs ∧
          List.lookup "terms" kvs = some (Yaml.list ts)) →
        load_all_terms gs = .ok ((sortGroups gs).flatMap groupTerms))
    ∧ (∀ gs : List SourceGroup,
        (sortGroups gs).Pairwise groupLe ∧ (sortGroups gs).Perm gs) := by
  refine ⟨?_, ?_, ?_⟩
  · intro gs1 gs2 hperm hnd
    have hs1 : List.Sorted groupLe (sortGroups gs1) :=
      List.sorted_insertionSort groupLe gs1
    have hs2 : List.Sorted groupLe (sortGroups gs2) :=
      List.sorted_insertionSort groupLe gs2
    have hp1 : (sortGroups gs1).Perm gs1 := List.perm_insertionSort groupLe gs1
    have hp2 : (sortGroups gs2).Perm gs2 := List.perm_insertionSort groupLe gs2
    have hnd1 : ((sortGroups gs1).map Prod.fst).Nodup :=
      ((hp1.map Prod.fst).nodup_iff).mpr hnd
    have hnd2g : (gs2.map Prod.fst).Nodup := ((hperm.map Prod.fst).nodup_iff).mp hnd
    have hnd2 : ((sortGroups gs2).map Prod.fst).Nodup :=
      ((hp2.map Prod.fst).nodup_iff).mpr hnd2g
    have hne1 : (sortGroups gs1).Pairwise (fun a b => a.1 ≠ b.1) :=
      List.pairwise_map.mp hnd1
    have hne2 : (sortGroups gs2).Pairwise (fun a b => a.1 ≠ b.1) :=
      List.pairwise_map.mp hnd2
    have hst1 : List.Sorted groupLtNe (sortGroups gs1) :=
      (hs1.and hne1).imp (fun h => h)
    have hst2 : List.Sorted groupLtNe (sortGroups gs2) :=
      (hs2.and hne2).imp (fun h => h)
    have hp12 : (sortGroups gs1).Perm (sortGroups gs2) :=
      hp1.trans (hperm.trans hp2.symm)
    have heq : sortGroups gs1 = sortGroups gs2 :=
      List.eq_of_perm_of_sorted hp12 hst1 hst2
    rw [load_all_terms, load_all_terms, heq]
  · intro gs hshape
    rw [load_all_terms]
    have hs : ∀ g ∈ sortGroups gs, ∃ kvs ts, g.2 = Yaml.map kvs ∧
        List.lookup "terms" kvs = some (Yaml.list ts) := by
      intro g hg
      exact hshape g ((List.perm_insertionSort groupLe gs).mem_iff.mp hg)
    have := load_aux (sortGroups gs) [] hs
    simpa using this
  · intro gs
    exact ⟨List.sorted_insertionSort groupLe gs, List.perm_insertionSort groupLe gs⟩

/-- C9 witness: two enumerations of the same two source groups load to the
same term list, which is the sorted-order concatenation. -/
theorem load_all_terms_deterministic_witness :
    load_all_terms
        [("malware.yaml", Yaml.map [("terms", Yaml.list [Yaml.map [("id", Yaml.str "worm")]])]),
         ("attack_types.yaml", Yaml.map [("terms", Yaml.list [Yaml.map [("id", Yaml.str "apt")]])])] =
      load_all_terms
        [("attack_types.yaml", Yaml.map [("terms", Yaml.list [Yaml.map [("id", Yaml.str "apt")]])]),
         ("malware.yaml", Yaml.map [("terms", Yaml.list [Yaml.map [("id", Yaml.str "worm")]])])]
    ∧ load_all_terms
        [("malware.yaml", Yaml.map [("terms", Yaml.list [Yaml.map [("id", Yaml.str "worm")]])]),
         ("attack_types.yaml", Yaml.map [("terms", Yaml.list [Yaml.map [("id", Yaml.str "apt")]])])] =
      .ok [Yaml.map [("id", Yaml.str "apt")], Yaml.map [("id", Yaml.str "worm")]] := by
  constructor
  · exact (load_all_terms_deterministic).1 _ _ (List.Perm.swap _ _ []) (by decide)
  · rw [(load_all_terms_deterministic).2.1 _ (by
      intro g hg
      fin_cases hg
      · exact ⟨_, _, rfl, rfl⟩
      · exact ⟨_, _, rfl, rfl⟩)]
    rfl

/-- C10: the URL-format check silently ignores reference entries it cannot
interpret as URL strings — a term whose `references` value is not a mapping
contributes no finding at all, filtering a references dict down to its
non-empty string entries never changes the findings, and every finding
arises from an entry whose value is a non-empty string. -/
theorem url_check_skips_nonstrings :
    (∀ t : TermDict, isYamlMap (pyGet t "references" (.map [])) = false →
        urlFindingsOfTerm t = [])
    ∧ (∀ (source termId : Yaml) (kvs : List (String × Yaml)),
        urlFindingsOfRefs source termId kvs =
          urlFindingsOfRefs source termId (kvs.filter urlTestedEntry))
    ∧ (∀ (source termId : Yaml) (kvs : List (String × Yaml)) (f : UrlFinding),
        f ∈ urlFindingsOfRefs source termId kvs →
        ∃ s, (f.refKey, Yaml.str s) ∈ kvs ∧ s ≠ "") := by
  refine ⟨?_, ?_, ?_⟩
  · intro t h
    rw [urlFindingsOfTerm]
    cases hr : pyGet t "references" (.map []) with
    | map kvs => rw [hr] at h; simp [isYamlMap] at h
    | null => rfl
    | bool b => rfl
    | int n => rfl
    | str s => rfl
    | list xs => rfl
  · intro source termId kvs
    rw [urlFindingsOfRefs_eq, urlFindingsOfRefs_eq,
      filter_filter_of_imp urlBadEntry_tested kvs]
  · intro source termId kvs f hf
    rw [urlFindingsOfRefs_eq] at hf
    rcases List.mem_map.mp hf with ⟨kv, hkvmem, hfe⟩
    have hbad : urlBadEntry kv = true := (List.mem_filter.mp hkvmem).2
    have hmem : kv ∈ kvs := (List.mem_filter.mp hkvmem).1
    rcases kv with ⟨k, v⟩
    cases v with
    | str s =>
      refine ⟨s, ?_, ?_⟩
      · rw [← hfe]
        exact hmem
      · intro he
        rw [he] at hbad
        have hfalse : urlBadEntry (k, Yaml.str "") = false := rfl
        rw [hfalse] at hbad
        exact nomatch hbad
    | null => simp [urlBadEntry] at hbad
    | bool b => simp [urlBadEntry] at hbad
    | int n => simp [urlBadEntry] at hbad
    | list xs => simp [urlBadEntry] at hbad
    | map m => simp [urlBadEntry] at hbad

/-- C10 witness: a term whose references value is a plain string is skipped
whole, and null/empty/non-string entries of a concrete dict are discarded
without changing the findings. -/
theorem url_check_skips_nonstrings_witness :
    urlFindingsOfTerm [("id", Yaml.str "t"), ("references", Yaml.str "not-a-dict")] = []
    ∧ urlFindingsOfRefs (Yaml.str "f.yaml") (Yaml.str "t")
        [("a", Yaml.null), ("b", Yaml.str ""), ("c", Yaml.int 3),
         ("d", Yaml.str "not-a-url")] =
      urlFindingsOfRefs (Yaml.str "f.yaml") (Yaml.str "t")
        [("d", Yaml.str "not-a-url")] := by
  constructor
  · exact (url_check_skips_nonstrings).1 _ (by decide)
  · have h := (url_check_skips_nonstrings).2.1 (Yaml.str "f.yaml") (Yaml.str "t")
      [("a", Yaml.null), ("b", Yaml.str ""), ("c", Yaml.int 3),
       ("d", Yaml.str "not-a-url")]
    simpa using h
